import Mathlib

/-!
Verification of the batch purge worker of the python-outlook-cli
repository (src/outlook/purge.py and OutlookClient.delete_messages in
src/outlook/clients/__init__.py), as a shallow embedding in Lean 4.

Modelling choices:
* A fetched Graph message is embedded as a structure with the three
  fields the purge loop reads: id, subject, received_date_time.  The
  datetime value is embedded as the string produced by formatting it
  (a datetime object is never falsy in Python, so the Python idiom
  "m_received or NONE" only tests for None).
* Every side effect of the loop (one click.echo call, one fetch, one
  delete_messages call) becomes one element of an event trace.
* The fetch results of successive iterations are scripted as a list:
  each entry gives the messages the fetch returns, or the exception it
  raises, together with a flag saying whether the foreground sets the
  shared quit event after that iteration settles (cooperative
  cancellation happens only between iterations in the source, because
  quit_event is read only at the top of the while loop).
-/

/-- Python truthiness of a value of type str or None: None and the empty
string are falsy. Embeds the test "if x.id" of the comprehension in
purge.py. -/
def pyTruthy (s : Option String) : Bool :=
  match s with
  | some t => t ≠ ""
  | none => false

/-- Python "s or d" for s of type str or None: the default is taken when
s is None or empty. -/
def pyStrOr (s : Option String) (dflt : String) : String :=
  match s with
  | some t => if t = "" then dflt else t
  | none => dflt

/-- The three fields of a fetched message that purge.py reads.  The
received_date_time field stores the string rendering of the datetime
object (or none when the message has no receivedDateTime). -/
structure Message where
  id : Option String
  subject : Option String
  received_date_time : Option String
deriving DecidableEq, Repr

/-- Modelled from the spec: purge.py imports sanitize_for_output from
outlook.utils, but utils.py in the source tree does not define it, so
its body is missing from the sources.  Spec section 4, step 4: "Output
must escape/sanitize subject text so embedded separator or control
characters cannot corrupt the line-oriented output format."  We model
it as replacing the pipe separator and every ASCII control character
(code below 32, or 127) with a space. -/
def sanitize_for_output (s : String) : String :=
  ⟨s.data.map fun c => if c = '|' ∨ c.toNat < 32 ∨ c.toNat = 127 then ' ' else c⟩

/-- One line echoed by purge.py, kept structured: each constructor is
one click.echo call site, with the arguments of its format string. -/
inductive Line where
  /-- The string "No more old emails found. Purge complete!". -/
  | completion : Line
  /-- One per-message report line; the four components are the four
  arguments of the format call, in order: action, m_id, the sanitized
  subject, the rendered received date. -/
  | message (action m_id subject received : String) : Line
  /-- The PROGRESS line with its three interpolated numbers. -/
  | progress (total iteration batch : Nat) : Line
  /-- The final RESULT line with its action token, total, folder id and
  cutoff. -/
  | result (action : String) (total : Nat) (folder_id before : String) : Line
deriving DecidableEq, Repr

/-- One observable step of the background purge context. -/
inductive Event where
  /-- The await of manager.get_messages for the given iteration number. -/
  | fetch (iteration : Nat) : Event
  /-- One click.echo call. -/
  | echo (line : Line) : Event
  /-- The await of manager.delete_messages with the given ids. -/
  | delete (ids : List String) : Event
deriving DecidableEq, Repr

/-- The rendering "{}|{}|{}|{}".format(action, m_id, subject, received)
of a per-message report line. -/
def format_message_line (action m_id subject received : String) : String :=
  action ++ "|" ++ m_id ++ "|" ++ subject ++ "|" ++ received

/-- The message_queue comprehension of purge.py: keep the messages with
a truthy id, as tuples (id, subject, received_date_time). -/
def message_queue (messages : List Message) :
    List (String × Option String × Option String) :=
  messages.filterMap fun x =>
    match x.id with
    | some i => if i = "" then none else some (i, x.subject, x.received_date_time)
    | none => none

/-- The body of one call of the inner coroutine of purge.py (fetch one
batch, report it, count it, delete it).  The fetched messages are given
as an argument, since the fetch result comes from the remote server.
Returns the events of the iteration, the returned batch count, and
whether the iteration set quit_event (true exactly on an empty fetch). -/
def purge_iteration (dry_run : Bool) (iteration total : Nat)
    (messages : List Message) : List Event × Nat × Bool :=
  if messages.isEmpty then
    ([Event.fetch iteration, Event.echo Line.completion], 0, true)
  else
    let queue := message_queue messages
    let action := if dry_run then "DRY-RUN" else "DELETING"
    let reports := queue.map fun q =>
      Event.echo (Line.message action q.1
        (sanitize_for_output (pyStrOr q.2.1 "NONE")) (q.2.2.getD "NONE"))
    let batch := queue.length
    (Event.fetch iteration :: reports
      ++ [Event.echo (Line.progress (total + batch) iteration batch)]
      ++ (if dry_run then [] else [Event.delete (queue.map (·.1))]),
     batch, false)

/-- The result the scripted fetch of one iteration produces: a page of
messages, or an exception raised while fetching. -/
inductive FetchResult where
  | ok (messages : List Message) : FetchResult
  | raise (err : String) : FetchResult
deriving DecidableEq, Repr

/-- One scripted iteration: the fetch result, and whether the foreground
context sets quit_event after this iteration settles (that is, before
the next top-of-loop check of the while loop). -/
abbrev ScriptEntry := FetchResult × Bool

/-- How a run of the background context ends. -/
inductive Outcome where
  /-- The while loop exited because quit_event was set; the RESULT line
  is echoed. -/
  | done : Outcome
  /-- A fetch raised; the exception propagates out of the worker thread
  uncaught, with no RESULT line. -/
  | aborted (err : String) : Outcome
  /-- Model artifact: the script supplied fewer fetch results than the
  loop consumed; the run is cut off here, undecided. -/
  | pending : Outcome
deriving DecidableEq, Repr

/-- The observable outcome of one run of the background context. -/
structure RunResult where
  events : List Event
  total : Nat
  quit : Bool
  outcome : Outcome
deriving DecidableEq, Repr

/-- The while loop of the inner worker function of purge.py: while
quit_event is not set, run one iteration, add its return value to
total, increment the counter.  quit is the current state of the shared
quit_event. -/
def purge_worker_loop (dry_run : Bool) :
    List ScriptEntry → Bool → Nat → Nat → RunResult
  | _, true, _, total => ⟨[], total, true, Outcome.done⟩
  | [], false, _, total => ⟨[], total, false, Outcome.pending⟩
  | (FetchResult.raise e, _) :: _, false, counter, total =>
      ⟨[Event.fetch counter], total, false, Outcome.aborted e⟩
  | (FetchResult.ok msgs, ext) :: rest, false, counter, total =>
      let step := purge_iteration dry_run counter total msgs
      let r := purge_worker_loop dry_run rest (step.2.2 || ext)
        (counter + 1) (total + step.2.1)
      ⟨step.1 ++ r.events, r.total, r.quit, r.outcome⟩

/-- The action token of the RESULT line. -/
def result_action (dry_run : Bool) : String :=
  if dry_run then "DRY-RUN" else "DELETED"

/-- The whole background context of purge.py (the inner worker run on
the dedicated thread): the while loop starting at counter 1, total 0,
quit_event unset, followed by the RESULT echo when the loop exits
normally.  When a fetch raises, the exception propagates and no RESULT
line is echoed. -/
def purge_worker_bg (dry_run : Bool) (folder_id before : String)
    (script : List ScriptEntry) : RunResult :=
  let r := purge_worker_loop dry_run script false 1 0
  match r.outcome with
  | Outcome.done =>
      ⟨r.events ++ [Event.echo (Line.result (result_action dry_run) r.total folder_id before)],
       r.total, r.quit, Outcome.done⟩
  | _ => r

/-- The iteration numbers of the fetch events of a trace, in order. -/
def fetchIterations (events : List Event) : List Nat :=
  events.filterMap fun e =>
    match e with
    | Event.fetch k => some k
    | _ => none

/-- The (total, iteration, batch) triples of the PROGRESS lines of a
trace, in order. -/
def progressTriples (events : List Event) : List (Nat × Nat × Nat) :=
  events.filterMap fun e =>
    match e with
    | Event.echo (Line.progress t i b) => some (t, i, b)
    | _ => none

/-- The totals of the RESULT lines of a trace, in order. -/
def resultTotals (events : List Event) : List Nat :=
  events.filterMap fun e =>
    match e with
    | Event.echo (Line.result _ t _ _) => some t
    | _ => none

/-- One unit per completion message of a trace, in order. -/
def completions (events : List Event) : List Unit :=
  events.filterMap fun e =>
    match e with
    | Event.echo Line.completion => some ()
    | _ => none

/-- The id tuples handed to delete_messages by a trace, in order. -/
def deleteCalls (events : List Event) : List (List String) :=
  events.filterMap fun e =>
    match e with
    | Event.delete ids => some ids
    | _ => none

/-- A script in which every iteration fetches a page successfully and
the foreground never cancels. -/
def batchScript (batches : List (List Message)) : List ScriptEntry :=
  batches.map fun b => (FetchResult.ok b, false)

/-! ## Foreground context of purge_worker

The outer function purge_worker starts the worker thread and then runs
a read loop: while the thread is alive, it prompts for a line (upcased
by the value_proc of click.prompt); on the literal QUIT it echoes an
acknowledgement, sets quit_event, and breaks out of the loop, at which
point purge_worker returns.  There is no thread.join call, so the
function returns as soon as its own loop exits.  Each pass of the loop
is scripted as a pair: the value the pass observes from
thread.is_alive(), and the line click.prompt returns in that pass. -/

/-- Python str.upper restricted to the ASCII range, as applied by the
value_proc of click.prompt. -/
def pyUpper (s : String) : String :=
  ⟨s.data.map Char.toUpper⟩

/-- The reason the foreground read loop of purge_worker exits. -/
inductive FgReturn where
  /-- The while condition saw thread.is_alive() return false. -/
  | threadExited : FgReturn
  /-- The user typed QUIT: quit_event is set and the loop breaks. -/
  | quitBreak : FgReturn
deriving DecidableEq, Repr

/-- The foreground read loop of purge_worker: each pass observes the
liveness of the worker thread and, when the thread is alive, one input
line.  Returns the exit reason together with the liveness value
observed in the returning pass; none when the scripted passes run out
with the loop still running. -/
def purge_worker_fg : List (Bool × String) → Option (FgReturn × Bool)
  | [] => none
  | (alive, inp) :: rest =>
    if alive = false then some (FgReturn.threadExited, alive)
    else if pyUpper inp = "QUIT" then some (FgReturn.quitBreak, alive)
    else purge_worker_fg rest

/-- The join-semantics property claimed of purge_worker: whenever the
call returns, the background thread had been observed to be no longer
alive, that is, the return is gated on the background context having
terminated. -/
def purge_worker_join_semantics : Prop :=
  ∀ passes r alive, purge_worker_fg passes = some (r, alive) → alive = false

/-! ## Delete fan-out (OutlookClient.delete_messages)

delete_messages wraps each per-message delete in an acquisition of a
Semaphore(4) and awaits asyncio.gather over all of them, with the
default return_exceptions=False.  Two aspects are embedded separately:

* the result gather hands the awaiting purge loop, as a function of the
  per-delete outcomes in completion order (the first exception, if any,
  propagates to the caller);
* the admission control of the semaphore, as a small-step system whose
  states count the per-message delete tasks that are not yet started,
  in flight, and finished, together with the free permits. -/

/-- The value await gather(...) with return_exceptions=False produces,
given the outcomes of the gathered awaitables in completion order: unit
when all succeed, otherwise the first exception, propagated to the
awaiting caller. -/
def gather_first_error : List (Except String Unit) → Except String Unit
  | [] => Except.ok ()
  | Except.ok () :: rest => gather_first_error rest
  | Except.error e :: _ => Except.error e

/-- What the await of OutlookClient.delete_messages returns to the purge
loop, given the outcomes of the individual message deletes in
completion order. -/
def delete_messages_result (outcomes : List (Except String Unit)) :
    Except String Unit :=
  gather_first_error outcomes

/-- The claim that per-message delete failures are absorbed: whatever
the per-delete outcomes, the purge loop sees delete_messages succeed. -/
def delete_failure_not_surfaced : Prop :=
  ∀ outcomes, delete_messages_result outcomes = Except.ok ()

/-- State of the bounded-concurrency delete fan-out of
delete_messages: how many per-message delete tasks have not yet
acquired the semaphore, how many hold it (their HTTP delete is in
flight), how many have finished, and how many of the 4 permits of
Semaphore(4) are free. -/
structure FanoutState where
  pending : Nat
  inFlight : Nat
  finished : Nat
  permits : Nat
deriving DecidableEq, Repr

/-- The initial fan-out state for a batch of n message ids: all n tasks
pending, Semaphore(4) full. -/
def fanoutInit (n : Nat) : FanoutState :=
  ⟨n, 0, 0, 4⟩

/-- One scheduler step of the fan-out: a pending task acquires the
semaphore when a permit is free and issues its delete, or an in-flight
delete settles and releases its permit.  These are the only two
transitions the async with block of delete_with_semaphore allows. -/
inductive FanoutStep : FanoutState → FanoutState → Prop where
  | acquire (p f d k : Nat) :
      FanoutStep ⟨p + 1, f, d, k + 1⟩ ⟨p, f + 1, d, k⟩
  | settle (p f d k : Nat) :
      FanoutStep ⟨p, f + 1, d, k⟩ ⟨p, f, d + 1, k + 1⟩

/-- The states the fan-out of a batch of n ids can reach. -/
def FanoutReachable (n : Nat) (s : FanoutState) : Prop :=
  Relation.ReflTransGen FanoutStep (fanoutInit n) s

/-- gather returns exactly when every gathered task has finished. -/
def gatherReturns (s : FanoutState) : Prop :=
  s.pending = 0 ∧ s.inFlight = 0

/-! ## Field-count helpers for the report lines -/

/-- An ASCII control character: code below 32, or 127. -/
def isCtrl (c : Char) : Bool :=
  decide (c.toNat < 32) || decide (c.toNat = 127)

/-- A character that can appear in one field of a pipe-delimited line:
not the separator and not a control character. -/
def cleanChar (c : Char) : Bool :=
  !((c == '|') || isCtrl c)

/-- A string free of the pipe separator and of control characters, so
it can stand as one field of a pipe-delimited line. -/
def cleanField (s : String) : Bool :=
  s.data.all cleanChar

/-- The number of fields a pipe-delimited line parses into: one more
than the number of pipe separators. -/
def fieldCount (s : String) : Nat :=
  s.data.count '|' + 1

/-- The trace of a sequence of successful iterations run back to back,
starting at the given counter and total. -/
def iterationTrace (d : Bool) (counter total : Nat) :
    List (List Message) → List Event
  | [] => []
  | msgs :: rest =>
      (purge_iteration d counter total msgs).1 ++
        iterationTrace d (counter + 1)
          (total + (purge_iteration d counter total msgs).2.1) rest

/-- The number of id-bearing messages over a sequence of batches: what
the successive iterations add to total. -/
def queueTotal (batches : List (List Message)) : Nat :=
  (batches.map fun b => (message_queue b).length).sum

/-- The (total, iteration, batch) triples the PROGRESS lines of
successive nonempty iterations should carry: running totals against
the batch sizes. -/
def expectedProgress (sizes : List Nat) (counter total : Nat) :
    List (Nat × Nat × Nat) :=
  match sizes with
  | [] => []
  | s :: rest => (total + s, counter, s) :: expectedProgress rest (counter + 1) (total + s)

/-- The view of a wet-run event in the corresponding dry run: delete calls disappear, the DELETING and DELETED action tokens
become DRY-RUN, everything else is unchanged. -/
def to_dry_event : Event → Option Event
  | Event.delete _ => none
  | Event.echo (Line.message a i s r) =>
      some (Event.echo (Line.message (if a = "DELETING" then "DRY-RUN" else a) i s r))
  | Event.echo (Line.result a t f b) =>
      some (Event.echo (Line.result (if a = "DELETED" then "DRY-RUN" else a) t f b))
  | e => some e

/-! ## Helper lemmas -/

lemma completions_append (a b : List Event) :
    completions (a ++ b) = completions a ++ completions b := by
  simp [completions, List.filterMap_append]

lemma fetchIterations_append (a b : List Event) :
    fetchIterations (a ++ b) = fetchIterations a ++ fetchIterations b := by
  simp [fetchIterations, List.filterMap_append]

lemma progressTriples_append (a b : List Event) :
    progressTriples (a ++ b) = progressTriples a ++ progressTriples b := by
  simp [progressTriples, List.filterMap_append]

lemma resultTotals_append (a b : List Event) :
    resultTotals (a ++ b) = resultTotals a ++ resultTotals b := by
  simp [resultTotals, List.filterMap_append]

lemma deleteCalls_append (a b : List Event) :
    deleteCalls (a ++ b) = deleteCalls a ++ deleteCalls b := by
  simp [deleteCalls, List.filterMap_append]

lemma message_queue_length_of_truthy (msgs : List Message)
    (h : ∀ m ∈ msgs, pyTruthy m.id = true) :
    (message_queue msgs).length = msgs.length := by
  induction msgs with
  | nil => rfl
  | cons m rest ih =>
    have hm := h m (List.mem_cons_self m rest)
    have hrest : ∀ x ∈ rest, pyTruthy x.id = true := fun x hx =>
      h x (List.mem_cons_of_mem m hx)
    match hid : m.id with
    | none => simp [pyTruthy, hid] at hm
    | some i =>
      have hi : i ≠ "" := by simpa [pyTruthy, hid] using hm
      have step : message_queue (m :: rest) =
          (i, m.subject, m.received_date_time) :: message_queue rest := by
        simp [message_queue, List.filterMap_cons, hid, hi]
      rw [step]
      simp [ih hrest]

lemma message_queue_eq_nil_of_falsy (msgs : List Message)
    (h : ∀ m ∈ msgs, pyTruthy m.id = false) :
    message_queue msgs = [] := by
  induction msgs with
  | nil => rfl
  | cons m rest ih =>
    have hm := h m (List.mem_cons_self m rest)
    have hrest : ∀ x ∈ rest, pyTruthy x.id = false := fun x hx =>
      h x (List.mem_cons_of_mem m hx)
    match hid : m.id with
    | none =>
      have step : message_queue (m :: rest) = message_queue rest := by
        simp [message_queue, List.filterMap_cons, hid]
      rw [step]; exact ih hrest
    | some i =>
      have hi : i = "" := by simpa [pyTruthy, hid] using hm
      have step : message_queue (m :: rest) = message_queue rest := by
        simp [message_queue, List.filterMap_cons, hid, hi]
      rw [step]; exact ih hrest

lemma purge_iteration_empty (d : Bool) (counter total : Nat) :
    purge_iteration d counter total [] =
      ([Event.fetch counter, Event.echo Line.completion], 0, true) := rfl

lemma purge_iteration_nonempty (d : Bool) (counter total : Nat)
    (msgs : List Message) (hne : msgs ≠ []) :
    purge_iteration d counter total msgs =
      (Event.fetch counter ::
        ((message_queue msgs).map fun q =>
          Event.echo (Line.message (if d then "DRY-RUN" else "DELETING") q.1
            (sanitize_for_output (pyStrOr q.2.1 "NONE")) (q.2.2.getD "NONE")))
        ++ [Event.echo (Line.progress (total + (message_queue msgs).length)
              counter (message_queue msgs).length)]
        ++ (if d then [] else [Event.delete ((message_queue msgs).map (·.1))]),
       (message_queue msgs).length, false) := by
  match msgs, hne with
  | m :: rest, _ => rfl

lemma completions_iteration_nonempty (d : Bool) (counter total : Nat)
    (msgs : List Message) (hne : msgs ≠ []) :
    completions (purge_iteration d counter total msgs).1 = [] := by
  rw [purge_iteration_nonempty d counter total msgs hne]
  simp [completions, List.filterMap_append, List.filterMap_map]

lemma fetchIterations_iteration_nonempty (d : Bool) (counter total : Nat)
    (msgs : List Message) (hne : msgs ≠ []) :
    fetchIterations (purge_iteration d counter total msgs).1 = [counter] := by
  rw [purge_iteration_nonempty d counter total msgs hne]
  simp [fetchIterations, List.filterMap_append, List.filterMap_map]

lemma progressTriples_iteration_nonempty (d : Bool) (counter total : Nat)
    (msgs : List Message) (hne : msgs ≠ []) :
    progressTriples (purge_iteration d counter total msgs).1 =
      [(total + (message_queue msgs).length, counter, (message_queue msgs).length)] := by
  rw [purge_iteration_nonempty d counter total msgs hne]
  simp [progressTriples, List.filterMap_append, List.filterMap_map,
    List.filterMap_eq_nil_iff, Function.comp]
  cases d <;> simp

lemma resultTotals_iteration (d : Bool) (counter total : Nat)
    (msgs : List Message) :
    resultTotals (purge_iteration d counter total msgs).1 = [] := by
  match msgs with
  | [] => rfl
  | m :: rest =>
    rw [purge_iteration_nonempty d counter total (m :: rest) (by simp)]
    simp [resultTotals, List.filterMap_append, List.filterMap_map]

lemma purge_worker_loop_quit (d : Bool) (script : List ScriptEntry)
    (counter total : Nat) :
    purge_worker_loop d script true counter total =
      ⟨[], total, true, Outcome.done⟩ := by
  cases script with
  | nil => rfl
  | cons e rest =>
    match e with
    | (FetchResult.ok _, _) => rfl
    | (FetchResult.raise _, _) => rfl

lemma purge_worker_loop_ok_cons (d : Bool) (msgs : List Message)
    (ext : Bool) (rest : List ScriptEntry) (counter total : Nat) :
    purge_worker_loop d ((FetchResult.ok msgs, ext) :: rest) false counter total =
      ⟨(purge_iteration d counter total msgs).1 ++
        (purge_worker_loop d rest ((purge_iteration d counter total msgs).2.2 || ext)
          (counter + 1) (total + (purge_iteration d counter total msgs).2.1)).events,
       (purge_worker_loop d rest ((purge_iteration d counter total msgs).2.2 || ext)
          (counter + 1) (total + (purge_iteration d counter total msgs).2.1)).total,
       (purge_worker_loop d rest ((purge_iteration d counter total msgs).2.2 || ext)
          (counter + 1) (total + (purge_iteration d counter total msgs).2.1)).quit,
       (purge_worker_loop d rest ((purge_iteration d counter total msgs).2.2 || ext)
          (counter + 1) (total + (purge_iteration d counter total msgs).2.1)).outcome⟩ := rfl

example :
    purge_worker_bg false "inbox" "2024-01-01T00:00:00"
      (batchScript [[⟨some "a", some "s", some "d"⟩]] ++ [(FetchResult.ok [], false)]) =
    ⟨[Event.fetch 1,
      Event.echo (Line.message "DELETING" "a" "s" "d"),
      Event.echo (Line.progress 1 1 1),
      Event.delete ["a"],
      Event.fetch 2, Event.echo Line.completion,
      Event.echo (Line.result "DELETED" 1 "inbox" "2024-01-01T00:00:00")],
     1, true, Outcome.done⟩ := by
  decide

lemma empty_batch_loop (d : Bool) (pre : List (List Message))
    (hne : ∀ x ∈ pre, x ≠ []) (ext : Bool) (rest : List ScriptEntry)
    (counter total : Nat) :
    completions (purge_worker_loop d
        (batchScript pre ++ (FetchResult.ok [], ext) :: rest) false counter total).events
      = [()] ∧
    fetchIterations (purge_worker_loop d
        (batchScript pre ++ (FetchResult.ok [], ext) :: rest) false counter total).events
      = List.range' counter (pre.length + 1) ∧
    (purge_worker_loop d
        (batchScript pre ++ (FetchResult.ok [], ext) :: rest) false counter total).quit
      = true ∧
    (purge_worker_loop d
        (batchScript pre ++ (FetchResult.ok [], ext) :: rest) false counter total).outcome
      = Outcome.done := by
  induction pre generalizing counter total with
  | nil =>
    simp only [batchScript, List.map_nil, List.nil_append]
    rw [purge_worker_loop_ok_cons, purge_iteration_empty]
    simp [purge_worker_loop_quit, completions, fetchIterations, List.range']
  | cons b bs ih =>
    have hb : b ≠ [] := hne b (List.mem_cons_self b bs)
    have hbs : ∀ x ∈ bs, x ≠ [] := fun x hx => hne x (List.mem_cons_of_mem b hx)
    have hstep := purge_iteration_nonempty d counter total b hb
    have h22 : (purge_iteration d counter total b).2.2 = false := by rw [hstep]
    have h21 : (purge_iteration d counter total b).2.1 = (message_queue b).length := by
      rw [hstep]
    simp only [batchScript, List.map_cons, List.cons_append]
    rw [purge_worker_loop_ok_cons, h22, h21]
    simp only [Bool.false_or]
    have ihx := ih hbs (counter + 1) (total + (message_queue b).length)
    simp only [batchScript] at ihx
    refine ⟨?_, ?_, ihx.2.2.1, ihx.2.2.2⟩
    · rw [completions_append, completions_iteration_nonempty d counter total b hb,
        ihx.1, List.nil_append]
    · rw [fetchIterations_append, fetchIterations_iteration_nonempty d counter total b hb,
        ihx.2.1, List.length_cons]
      rw [List.range'_succ]
      rfl

/-- C4: if the fetch returns zero messages on iteration k (after k-1
nonempty fetches), the run emits exactly one completion message, sets
the cancellation signal, terminates in the DONE state, and performs no
fetch for iteration k+1: the fetch events are exactly iterations 1..k,
whatever the script holds beyond the empty batch. -/
theorem termination_on_empty_batch (d : Bool) (folder_id before : String)
    (pre : List (List Message)) (hne : ∀ x ∈ pre, x ≠ [])
    (ext : Bool) (rest : List ScriptEntry) :
    completions (purge_worker_bg d folder_id before
        (batchScript pre ++ (FetchResult.ok [], ext) :: rest)).events = [()] ∧
    fetchIterations (purge_worker_bg d folder_id before
        (batchScript pre ++ (FetchResult.ok [], ext) :: rest)).events
      = List.range' 1 (pre.length + 1) ∧
    (purge_worker_bg d folder_id before
        (batchScript pre ++ (FetchResult.ok [], ext) :: rest)).quit = true ∧
    (purge_worker_bg d folder_id before
        (batchScript pre ++ (FetchResult.ok [], ext) :: rest)).outcome
      = Outcome.done := by
  have h := empty_batch_loop d pre hne ext rest 1 0
  simp only [purge_worker_bg]
  rw [h.2.2.2]
  simp only
  rw [completions_append, fetchIterations_append, h.1, h.2.1]
  refine ⟨?_, ?_, h.2.2.1, by trivial⟩
  · simp [completions]
  · simp [fetchIterations]

/-- C4 witness: a concrete run with one nonempty batch and then an
empty fetch behaves as the theorem states. -/
theorem termination_on_empty_batch_witness :
    completions (purge_worker_bg false "inbox" "2024-01-01"
        (batchScript [[⟨some "a", none, none⟩]]
          ++ (FetchResult.ok [], false) :: [(FetchResult.ok [⟨some "b", none, none⟩], false)])).events
      = [()] ∧
    fetchIterations (purge_worker_bg false "inbox" "2024-01-01"
        (batchScript [[⟨some "a", none, none⟩]]
          ++ (FetchResult.ok [], false) :: [(FetchResult.ok [⟨some "b", none, none⟩], false)])).events
      = List.range' 1 2 ∧
    (purge_worker_bg false "inbox" "2024-01-01"
        (batchScript [[⟨some "a", none, none⟩]]
          ++ (FetchResult.ok [], false) :: [(FetchResult.ok [⟨some "b", none, none⟩], false)])).quit
      = true ∧
    (purge_worker_bg false "inbox" "2024-01-01"
        (batchScript [[⟨some "a", none, none⟩]]
          ++ (FetchResult.ok [], false) :: [(FetchResult.ok [⟨some "b", none, none⟩], false)])).outcome
      = Outcome.done := by
  have := termination_on_empty_batch false "inbox" "2024-01-01"
    [[⟨some "a", none, none⟩]] (by simp) false
    [(FetchResult.ok [⟨some "b", none, none⟩], false)]
  simpa using this

lemma raise_loop (d : Bool) (pre : List (List Message))
    (hne : ∀ x ∈ pre, x ≠ []) (e : String) (ext : Bool)
    (rest : List ScriptEntry) (counter total : Nat) :
    (purge_worker_loop d
        (batchScript pre ++ (FetchResult.raise e, ext) :: rest) false counter total).outcome
      = Outcome.aborted e ∧
    resultTotals (purge_worker_loop d
        (batchScript pre ++ (FetchResult.raise e, ext) :: rest) false counter total).events
      = [] ∧
    fetchIterations (purge_worker_loop d
        (batchScript pre ++ (FetchResult.raise e, ext) :: rest) false counter total).events
      = List.range' counter (pre.length + 1) := by
  induction pre generalizing counter total with
  | nil =>
    simp only [batchScript, List.map_nil, List.nil_append]
    simp [purge_worker_loop, resultTotals, fetchIterations, List.range']
  | cons b bs ih =>
    have hb : b ≠ [] := hne b (List.mem_cons_self b bs)
    have hbs : ∀ x ∈ bs, x ≠ [] := fun x hx => hne x (List.mem_cons_of_mem b hx)
    have hstep := purge_iteration_nonempty d counter total b hb
    have h22 : (purge_iteration d counter total b).2.2 = false := by rw [hstep]
    have h21 : (purge_iteration d counter total b).2.1 = (message_queue b).length := by
      rw [hstep]
    simp only [batchScript, List.map_cons, List.cons_append]
    rw [purge_worker_loop_ok_cons, h22, h21]
    simp only [Bool.false_or]
    have ihx := ih hbs (counter + 1) (total + (message_queue b).length)
    simp only [batchScript] at ihx
    refine ⟨ihx.1, ?_, ?_⟩
    · rw [resultTotals_append, resultTotals_iteration, ihx.2.1, List.nil_append]
    · rw [fetchIterations_append, fetchIterations_iteration_nonempty d counter total b hb,
        ihx.2.2, List.length_cons, List.range'_succ]
      rfl

/-- C8: when the fetch of some iteration raises, the exception
propagates: the run ends in the ABORTED state carrying the exception,
no RESULT line is emitted, and the fetch is not retried: the fetch
events are exactly iterations 1..k, with the failing fetch k last,
whatever the script holds after the failure. -/
theorem fetch_failure_fail_fast (d : Bool) (folder_id before : String)
    (pre : List (List Message)) (hne : ∀ x ∈ pre, x ≠ [])
    (e : String) (ext : Bool) (rest : List ScriptEntry) :
    (purge_worker_bg d folder_id before
        (batchScript pre ++ (FetchResult.raise e, ext) :: rest)).outcome
      = Outcome.aborted e ∧
    resultTotals (purge_worker_bg d folder_id before
        (batchScript pre ++ (FetchResult.raise e, ext) :: rest)).events = [] ∧
    fetchIterations (purge_worker_bg d folder_id before
        (batchScript pre ++ (FetchResult.raise e, ext) :: rest)).events
      = List.range' 1 (pre.length + 1) := by
  have h := raise_loop d pre hne e ext rest 1 0
  simp only [purge_worker_bg]
  rw [h.1]
  simp only
  exact h

/-- C8 witness: a concrete run whose second fetch raises aborts with
that error, emits no RESULT line, and fetches exactly twice. -/
theorem fetch_failure_fail_fast_witness :
    (purge_worker_bg false "inbox" "2024-01-01"
        (batchScript [[⟨some "a", none, none⟩]]
          ++ (FetchResult.raise "boom", false) :: [])).outcome
      = Outcome.aborted "boom" ∧
    resultTotals (purge_worker_bg false "inbox" "2024-01-01"
        (batchScript [[⟨some "a", none, none⟩]]
          ++ (FetchResult.raise "boom", false) :: [])).events = [] ∧
    fetchIterations (purge_worker_bg false "inbox" "2024-01-01"
        (batchScript [[⟨some "a", none, none⟩]]
          ++ (FetchResult.raise "boom", false) :: [])).events
      = List.range' 1 2 := by
  have := fetch_failure_fail_fast false "inbox" "2024-01-01"
    [[⟨some "a", none, none⟩]] (by simp) "boom" false []
  simpa using this

/-- C10: a nonempty fetched page in which every message has a falsy id
(None or empty) yields no per-message lines, a PROGRESS line with
batch 0 and an unchanged total, an empty id tuple for the delete call,
a returned batch count of 0, and does not set the cancellation signal;
at the loop level the run then proceeds to fetch the next iteration
rather than reaching the empty-batch terminal state. -/
theorem idless_messages_dropped (d : Bool) (iteration total : Nat)
    (msgs : List Message) (hne : msgs ≠ [])
    (hid : ∀ m ∈ msgs, pyTruthy m.id = false)
    (rest : List ScriptEntry) (counter t0 : Nat) :
    purge_iteration d iteration total msgs =
      (Event.fetch iteration ::
        Event.echo (Line.progress total iteration 0) ::
        (if d then [] else [Event.delete []]), 0, false) ∧
    fetchIterations (purge_worker_loop d
        ((FetchResult.ok msgs, false) :: (FetchResult.ok [], false) :: rest)
        false counter t0).events = [counter, counter + 1] := by
  have hq : message_queue msgs = [] := message_queue_eq_nil_of_falsy msgs hid
  have hstep := purge_iteration_nonempty d iteration total msgs hne
  rw [hq] at hstep
  simp only [List.map_nil, List.length_nil, Nat.add_zero, List.nil_append] at hstep
  constructor
  · rw [hstep]; simp
  · have hstepc := purge_iteration_nonempty d counter t0 msgs hne
    have h22 : (purge_iteration d counter t0 msgs).2.2 = false := by rw [hstepc]
    have h21 : (purge_iteration d counter t0 msgs).2.1 = (message_queue msgs).length := by
      rw [hstepc]
    rw [purge_worker_loop_ok_cons, h22, h21]
    simp only [Bool.false_or]
    rw [purge_worker_loop_ok_cons, purge_iteration_empty]
    simp only [Bool.true_or]
    rw [purge_worker_loop_quit]
    simp only
    rw [fetchIterations_append,
      fetchIterations_iteration_nonempty d counter t0 msgs hne]
    simp [fetchIterations]

/-- C10 witness: a concrete page of two messages, one with id None and
one with an empty id, behaves as the theorem states. -/
theorem idless_messages_dropped_witness :
    purge_iteration false 3 7 [⟨none, some "s", none⟩, ⟨some "", none, some "d"⟩] =
      (Event.fetch 3 ::
        Event.echo (Line.progress 7 3 0) ::
        (if false then [] else [Event.delete []]), 0, false) ∧
    fetchIterations (purge_worker_loop false
        ((FetchResult.ok [⟨none, some "s", none⟩, ⟨some "", none, some "d"⟩], false)
          :: (FetchResult.ok [], false) :: [])
        false 3 7).events = [3, 3 + 1] :=
  idless_messages_dropped false 3 7
    [⟨none, some "s", none⟩, ⟨some "", none, some "d"⟩]
    (by simp) (by decide) [] 3 7

/-- C2 counterexample: purge_worker is not join-gated on the background
context.  In the concrete execution in which the first pass of the read
loop observes the worker thread alive and reads the line quit, the call
returns by the QUIT break while the background thread was alive at the
last observation; nothing between that observation and the return waits
for the background loop, since the source has no thread.join call. -/
theorem purge_worker_no_join : ¬ purge_worker_join_semantics := by
  intro h
  have hfg : purge_worker_fg [(true, "quit")] = some (FgReturn.quitBreak, true) := by
    decide
  have := h [(true, "quit")] FgReturn.quitBreak true hfg
  exact absurd this (by decide)

/-- C2 amended: purge_worker returns exactly when its foreground read
loop exits, and that happens for one of two reasons: the loop observed
thread.is_alive() false (the background loop had exited), or the user
typed QUIT, in which case the signal is set and the call returns
immediately with the background thread still alive at the last
observation: the return is not gated on the background context. -/
theorem purge_worker_return_reasons (passes : List (Bool × String))
    (r : FgReturn) (alive : Bool)
    (h : purge_worker_fg passes = some (r, alive)) :
    (r = FgReturn.threadExited ∧ alive = false) ∨
    (r = FgReturn.quitBreak ∧ alive = true) := by
  induction passes with
  | nil => simp [purge_worker_fg] at h
  | cons p rest ih =>
    match p with
    | (a, i) =>
      by_cases ha : a = false
      · subst ha
        simp [purge_worker_fg] at h
        exact Or.inl ⟨h.1.symm, h.2⟩
      · have ha' : a = true := by
          cases a
          · exact absurd rfl ha
          · rfl
        subst ha'
        by_cases hq : pyUpper i = "QUIT"
        · simp [purge_worker_fg, hq] at h
          exact Or.inr ⟨h.1.symm, h.2⟩
        · simp [purge_worker_fg, hq] at h
          exact ih h

/-- C2 amended witness: the QUIT execution returns with the quitBreak
reason while the thread was observed alive. -/
theorem purge_worker_return_reasons_witness :
    (FgReturn.quitBreak = FgReturn.threadExited ∧ true = false) ∨
    (FgReturn.quitBreak = FgReturn.quitBreak ∧ true = true) :=
  purge_worker_return_reasons [(true, "quit")] FgReturn.quitBreak true (by decide)

/-- C7 counterexample: a per-message delete failure is surfaced to the
purge loop.  With the default return_exceptions of asyncio.gather, a
single failing delete makes the await of delete_messages raise: on the
concrete outcome list with one success and one failure, the purge loop
sees the error, not success. -/
theorem delete_failure_surfaced : ¬ delete_failure_not_surfaced := by
  intro h
  have := h [Except.ok (), Except.error "boom"]
  simp [delete_messages_result, gather_first_error] at this

/-- C7 amended: within one batch delete fan-out, the first failing
delete (in completion order) propagates its exception out of
delete_messages to the purge loop, whatever outcomes follow it; the
failure is not absorbed. -/
theorem delete_failure_propagates (oks : List (Except String Unit))
    (hok : ∀ o ∈ oks, o = Except.ok ()) (e : String)
    (rest : List (Except String Unit)) :
    delete_messages_result (oks ++ Except.error e :: rest) = Except.error e := by
  induction oks with
  | nil => rfl
  | cons o os ih =>
    have ho : o = Except.ok () := hok o (List.mem_cons_self o os)
    have hos : ∀ x ∈ os, x = Except.ok () := fun x hx => hok x (List.mem_cons_of_mem o hx)
    subst ho
    simpa [delete_messages_result, gather_first_error] using ih hos

/-- C7 amended witness: one successful delete followed by a failure and
another settled delete surfaces the failure. -/
theorem delete_failure_propagates_witness :
    delete_messages_result ([Except.ok ()] ++ Except.error "boom" :: [Except.ok ()])
      = Except.error "boom" :=
  delete_failure_propagates [Except.ok ()] (by simp) "boom" [Except.ok ()]

lemma fanout_invariant (n : Nat) (s : FanoutState)
    (h : FanoutReachable n s) :
    s.inFlight + s.permits = 4 ∧ s.pending + s.inFlight + s.finished = n := by
  induction h with
  | refl => simp [fanoutInit]
  | tail _ step ih =>
    cases step with
    | acquire p f d k =>
      simp only at ih ⊢
      omega
    | settle p f d k =>
      simp only at ih ⊢
      omega

/-- C9: for a batch of any size of at least 4, every state the delete
fan-out of delete_messages can reach keeps the number of deletes in
flight at or below the 4 permits of the semaphore, and gather hands
control back to the loop only in a state where every delete of the
batch has settled. -/
theorem delete_concurrency_ceiling (n : Nat) (hn : 4 ≤ n)
    (s : FanoutState) (h : FanoutReachable n s) :
    s.inFlight ≤ 4 ∧ (gatherReturns s → s.finished = n) := by
  have inv := fanout_invariant n s h
  constructor
  · omega
  · intro hg
    rcases hg with ⟨hp, hf⟩
    omega

/-- C9 witness: the initial fan-out state of a batch of 5 ids is
reachable and satisfies the ceiling. -/
theorem delete_concurrency_ceiling_witness :
    (fanoutInit 5).inFlight ≤ 4 ∧
    (gatherReturns (fanoutInit 5) → (fanoutInit 5).finished = 5) :=
  delete_concurrency_ceiling 5 (by decide) (fanoutInit 5) Relation.ReflTransGen.refl

lemma cancel_after_loop (d : Bool) (pre : List (List Message))
    (hne : ∀ x ∈ pre, x ≠ []) (last : List Message) (hlast : last ≠ [])
    (rest : List ScriptEntry) (counter total : Nat) :
    purge_worker_loop d (batchScript pre ++ (FetchResult.ok last, true) :: rest)
        false counter total =
      ⟨iterationTrace d counter total (pre ++ [last]),
       total + queueTotal (pre ++ [last]), true, Outcome.done⟩ := by
  induction pre generalizing counter total with
  | nil =>
    have hstep := purge_iteration_nonempty d counter total last hlast
    have h22 : (purge_iteration d counter total last).2.2 = false := by rw [hstep]
    have h21 : (purge_iteration d counter total last).2.1 = (message_queue last).length := by
      rw [hstep]
    simp only [batchScript, List.map_nil, List.nil_append]
    rw [purge_worker_loop_ok_cons, h22, h21]
    simp only [Bool.false_or, Bool.false_and]
    rw [purge_worker_loop_quit]
    simp [iterationTrace, queueTotal, h21]
  | cons b bs ih =>
    have hb : b ≠ [] := hne b (List.mem_cons_self b bs)
    have hbs : ∀ x ∈ bs, x ≠ [] := fun x hx => hne x (List.mem_cons_of_mem b hx)
    have hstep := purge_iteration_nonempty d counter total b hb
    have h22 : (purge_iteration d counter total b).2.2 = false := by rw [hstep]
    have h21 : (purge_iteration d counter total b).2.1 = (message_queue b).length := by
      rw [hstep]
    simp only [batchScript, List.map_cons, List.cons_append]
    rw [purge_worker_loop_ok_cons, h22, h21]
    simp only [Bool.false_or]
    have ihx := ih hbs (counter + 1) (total + (message_queue b).length)
    simp only [batchScript] at ihx
    rw [ihx]
    simp only [List.cons_append, iterationTrace, h21, queueTotal, List.map_cons,
      List.sum_cons]
    simp only [RunResult.mk.injEq]
    refine ⟨by trivial, by omega, by trivial, by trivial⟩

lemma fetchIterations_iterationTrace (d : Bool) (batches : List (List Message))
    (hne : ∀ b ∈ batches, b ≠ []) (counter total : Nat) :
    fetchIterations (iterationTrace d counter total batches)
      = List.range' counter batches.length := by
  induction batches generalizing counter total with
  | nil => simp [iterationTrace, fetchIterations]
  | cons b bs ih =>
    have hb : b ≠ [] := hne b (List.mem_cons_self b bs)
    have hbs : ∀ x ∈ bs, x ≠ [] := fun x hx => hne x (List.mem_cons_of_mem b hx)
    simp only [iterationTrace]
    rw [fetchIterations_append, fetchIterations_iteration_nonempty d counter total b hb,
      ih hbs, List.length_cons, List.range'_succ]
    rfl

/-- C6: when the cancellation signal is set after iteration k settles
and before iteration k+1 begins, the run performs exactly iterations
1..k with iteration k fully reported and deleted (the trace is exactly
the complete per-iteration traces, nothing truncated), reaches the
DONE state with the RESULT line, and iteration k+1 never occurs: the
fetch events are exactly iterations 1..k, whatever the script holds
beyond the cancellation point. -/
theorem cancellation_boundary (d : Bool) (folder_id before : String)
    (pre : List (List Message)) (hne : ∀ x ∈ pre, x ≠ [])
    (last : List Message) (hlast : last ≠ []) (rest : List ScriptEntry) :
    purge_worker_bg d folder_id before
        (batchScript pre ++ (FetchResult.ok last, true) :: rest) =
      ⟨iterationTrace d 1 0 (pre ++ [last]) ++
        [Event.echo (Line.result (result_action d)
          (queueTotal (pre ++ [last])) folder_id before)],
       queueTotal (pre ++ [last]), true, Outcome.done⟩ ∧
    fetchIterations (purge_worker_bg d folder_id before
        (batchScript pre ++ (FetchResult.ok last, true) :: rest)).events
      = List.range' 1 (pre.length + 1) := by
  have h := cancel_after_loop d pre hne last hlast rest 1 0
  have hall : ∀ b ∈ pre ++ [last], b ≠ [] := by
    intro b hb
    rcases List.mem_append.mp hb with hb | hb
    · exact hne b hb
    · rcases List.mem_singleton.mp hb with rfl
      exact hlast
  constructor
  · simp only [purge_worker_bg]
    rw [h]
    simp
  · simp only [purge_worker_bg]
    rw [h]
    simp only
    rw [fetchIterations_append, fetchIterations_iterationTrace d (pre ++ [last]) hall 1 0]
    simp [fetchIterations, List.length_append]

/-- C6 witness: one batch, then cancellation set while the second batch
is in flight: the run performs both iterations in full and stops. -/
theorem cancellation_boundary_witness :
    purge_worker_bg false "inbox" "2024-01-01"
        (batchScript [[⟨some "a", none, none⟩]]
          ++ (FetchResult.ok [⟨some "b", none, none⟩], true)
            :: [(FetchResult.ok [⟨some "c", none, none⟩], false)]) =
      ⟨iterationTrace false 1 0 ([[⟨some "a", none, none⟩]] ++ [[⟨some "b", none, none⟩]]) ++
        [Event.echo (Line.result (result_action false)
          (queueTotal ([[⟨some "a", none, none⟩]] ++ [[⟨some "b", none, none⟩]]))
          "inbox" "2024-01-01")],
       queueTotal ([[⟨some "a", none, none⟩]] ++ [[⟨some "b", none, none⟩]]),
       true, Outcome.done⟩ ∧
    fetchIterations (purge_worker_bg false "inbox" "2024-01-01"
        (batchScript [[⟨some "a", none, none⟩]]
          ++ (FetchResult.ok [⟨some "b", none, none⟩], true)
            :: [(FetchResult.ok [⟨some "c", none, none⟩], false)])).events
      = List.range' 1 2 :=
  cancellation_boundary false "inbox" "2024-01-01"
    [[⟨some "a", none, none⟩]] (by simp)
    [⟨some "b", none, none⟩] (by simp)
    [(FetchResult.ok [⟨some "c", none, none⟩], false)]

lemma progressTriples_iterationTrace (d : Bool) (batches : List (List Message))
    (hne : ∀ b ∈ batches, b ≠ []) (counter total : Nat) :
    progressTriples (iterationTrace d counter total batches)
      = expectedProgress (batches.map fun b => (message_queue b).length) counter total := by
  induction batches generalizing counter total with
  | nil => simp [iterationTrace, progressTriples, expectedProgress]
  | cons b bs ih =>
    have hb : b ≠ [] := hne b (List.mem_cons_self b bs)
    have hbs : ∀ x ∈ bs, x ≠ [] := fun x hx => hne x (List.mem_cons_of_mem b hx)
    simp only [iterationTrace, List.map_cons]
    rw [progressTriples_append,
      progressTriples_iteration_nonempty d counter total b hb, ih hbs]
    have h21 : (purge_iteration d counter total b).2.1 = (message_queue b).length := by
      rw [purge_iteration_nonempty d counter total b hb]
    rw [h21]
    rfl

lemma resultTotals_iterationTrace (d : Bool) (batches : List (List Message))
    (counter total : Nat) :
    resultTotals (iterationTrace d counter total batches) = [] := by
  induction batches generalizing counter total with
  | nil => simp [iterationTrace, resultTotals]
  | cons b bs ih =>
    simp only [iterationTrace]
    rw [resultTotals_append, resultTotals_iteration, ih]
    rfl

lemma batch_then_empty_loop (d : Bool) (batches : List (List Message))
    (hne : ∀ x ∈ batches, x ≠ []) (counter total : Nat) :
    purge_worker_loop d (batchScript batches ++ [(FetchResult.ok [], false)])
        false counter total =
      ⟨iterationTrace d counter total batches ++
        [Event.fetch (counter + batches.length), Event.echo Line.completion],
       total + queueTotal batches, true, Outcome.done⟩ := by
  induction batches generalizing counter total with
  | nil =>
    simp only [batchScript, List.map_nil, List.nil_append]
    rw [purge_worker_loop_ok_cons, purge_iteration_empty]
    simp only [Bool.true_or]
    rw [purge_worker_loop_quit]
    simp [iterationTrace, queueTotal]
  | cons b bs ih =>
    have hb : b ≠ [] := hne b (List.mem_cons_self b bs)
    have hbs : ∀ x ∈ bs, x ≠ [] := fun x hx => hne x (List.mem_cons_of_mem b hx)
    have hstep := purge_iteration_nonempty d counter total b hb
    have h22 : (purge_iteration d counter total b).2.2 = false := by rw [hstep]
    have h21 : (purge_iteration d counter total b).2.1 = (message_queue b).length := by
      rw [hstep]
    simp only [batchScript, List.map_cons, List.cons_append]
    rw [purge_worker_loop_ok_cons, h22, h21]
    simp only [Bool.false_or]
    have ihx := ih hbs (counter + 1) (total + (message_queue b).length)
    simp only [batchScript] at ihx
    rw [ihx]
    simp only [iterationTrace, queueTotal, List.map_cons, List.sum_cons,
      List.length_cons, List.append_assoc, RunResult.mk.injEq]
    refine ⟨?_, by omega, by trivial, by trivial⟩
    have hcnt : counter + 1 + bs.length = counter + (bs.length + 1) := by omega
    rw [hcnt, h21]

lemma expectedProgress_getElem (sizes : List Nat) (counter total : Nat)
    (k : Nat) (h : k < sizes.length) :
    (expectedProgress sizes counter total)[k]? =
      some (total + ((sizes.take (k + 1)).sum), counter + k, sizes.getD k 0) := by
  induction sizes generalizing counter total k with
  | nil => simp at h
  | cons s rest ih =>
    cases k with
    | zero => simp [expectedProgress]
    | succ k =>
      have hk : k < rest.length := by simpa using h
      simp only [expectedProgress, List.getElem?_cons_succ]
      rw [ih (counter + 1) (total + s) k hk]
      simp only [List.take_succ_cons, List.sum_cons, List.getD_cons_succ]
      have h1 : total + s + (List.take (k + 1) rest).sum
          = total + (s + (List.take (k + 1) rest).sum) := by omega
      have h2 : counter + 1 + k = counter + (k + 1) := by omega
      rw [h1, h2]

lemma queue_lengths_of_truthy (batches : List (List Message))
    (hid : ∀ x ∈ batches, ∀ m ∈ x, pyTruthy m.id = true) :
    (batches.map fun b => (message_queue b).length) = batches.map List.length := by
  apply List.map_congr_left
  intro b hb
  exact message_queue_length_of_truthy b (hid b hb)

/-- C1: over a run of nonempty fetched batches of id-bearing messages
closed off by an empty fetch, the PROGRESS line of iteration k (for
any 1 <= k <= n) reports exactly the sum of the sizes of batches
1..k, with iteration number k and batch size b_k, and the RESULT line
reports the sum of all batch sizes. -/
theorem progress_monotonicity (d : Bool) (folder_id before : String)
    (batches : List (List Message))
    (hne : ∀ x ∈ batches, x ≠ [])
    (hid : ∀ x ∈ batches, ∀ m ∈ x, pyTruthy m.id = true)
    (k : Nat) (h1 : 1 ≤ k) (hk : k ≤ batches.length) :
    (progressTriples (purge_worker_bg d folder_id before
        (batchScript batches ++ [(FetchResult.ok [], false)])).events)[k - 1]? =
      some ((((batches.map List.length).take k).sum), k,
        (batches.map List.length).getD (k - 1) 0) ∧
    resultTotals (purge_worker_bg d folder_id before
        (batchScript batches ++ [(FetchResult.ok [], false)])).events
      = [(batches.map List.length).sum] := by
  have hloop := batch_then_empty_loop d batches hne 1 0
  have hsizes := queue_lengths_of_truthy batches hid
  simp only [purge_worker_bg]
  rw [hloop]
  simp only
  constructor
  · have hlen : k - 1 < (batches.map List.length).length := by
      simp only [List.length_map]
      omega
    have hgot := expectedProgress_getElem (batches.map List.length) 1 0 (k - 1) hlen
    have hk1 : k - 1 + 1 = k := by omega
    have hk2 : 1 + (k - 1) = k := by omega
    rw [hk1, hk2, Nat.zero_add] at hgot
    rw [progressTriples_append, progressTriples_append,
      progressTriples_iterationTrace d batches hne 1 0, hsizes]
    have htail1 : progressTriples [Event.fetch (1 + batches.length),
        Event.echo Line.completion] = [] := by simp [progressTriples]
    have htail2 : progressTriples [Event.echo (Line.result (result_action d)
        (0 + queueTotal batches) folder_id before)] = [] := by simp [progressTriples]
    rw [htail1, htail2, List.append_nil, List.append_nil]
    exact hgot
  · rw [resultTotals_append, resultTotals_append,
      resultTotals_iterationTrace d batches 1 0]
    have htail1 : resultTotals [Event.fetch (1 + batches.length),
        Event.echo Line.completion] = [] := by simp [resultTotals]
    rw [htail1]
    simp only [List.nil_append]
    have : resultTotals [Event.echo (Line.result (result_action d)
        (0 + queueTotal batches) folder_id before)] = [0 + queueTotal batches] := by
      simp [resultTotals]
    rw [this, Nat.zero_add]
    unfold queueTotal
    rw [hsizes]

/-- C1 witness: two batches of sizes 2 and 1; after iteration 2 the
PROGRESS line reports total 3, and the RESULT line reports 3. -/
theorem progress_monotonicity_witness :
    (progressTriples (purge_worker_bg false "inbox" "2024-01-01"
        (batchScript [[Message.mk (some "a") none none, Message.mk (some "b") none none],
            [Message.mk (some "c") none none]]
          ++ [(FetchResult.ok [], false)])).events)[2 - 1]? =
      some (((([[Message.mk (some "a") none none, Message.mk (some "b") none none],
            [Message.mk (some "c") none none]].map List.length).take 2).sum), 2,
        ([[Message.mk (some "a") none none, Message.mk (some "b") none none],
            [Message.mk (some "c") none none]].map List.length).getD (2 - 1) 0) ∧
    resultTotals (purge_worker_bg false "inbox" "2024-01-01"
        (batchScript [[Message.mk (some "a") none none, Message.mk (some "b") none none],
            [Message.mk (some "c") none none]]
          ++ [(FetchResult.ok [], false)])).events
      = [([[Message.mk (some "a") none none, Message.mk (some "b") none none],
            [Message.mk (some "c") none none]].map List.length).sum] :=
  progress_monotonicity false "inbox" "2024-01-01"
    [[Message.mk (some "a") none none, Message.mk (some "b") none none], [Message.mk (some "c") none none]]
    (by simp) (by decide) 2 (by decide) (by decide)

lemma filterMap_some_comp {α β : Type} (f : α → β) (l : List α) :
    l.filterMap (fun a => some (f a)) = l.map f := by
  induction l with
  | nil => rfl
  | cons a l ih => simp [List.filterMap_cons, ih]

lemma purge_iteration_dry_wet (counter total : Nat) (msgs : List Message) :
    (purge_iteration true counter total msgs).1 =
      ((purge_iteration false counter total msgs).1).filterMap to_dry_event ∧
    deleteCalls (purge_iteration true counter total msgs).1 = [] ∧
    (purge_iteration true counter total msgs).2 =
      (purge_iteration false counter total msgs).2 := by
  rcases hm : msgs with _ | ⟨m, ms⟩
  · simp [purge_iteration, to_dry_event, deleteCalls, List.filterMap_cons]
  · have hne : msgs ≠ [] := by rw [hm]; simp
    rw [← hm]
    rw [purge_iteration_nonempty true counter total msgs hne,
      purge_iteration_nonempty false counter total msgs hne]
    simp only [show ((false = true) = False) from by simp,
      show ((true = true) = True) from by simp, if_true, if_false]
    refine ⟨?_, ?_, by simp⟩
    · simp only [List.filterMap_cons, List.filterMap_append, List.filterMap_map,
        List.append_nil]
      rw [show to_dry_event ∘ (fun q : String × Option String × Option String =>
            Event.echo (Line.message "DELETING" q.1
              (sanitize_for_output (pyStrOr q.2.1 "NONE")) (q.2.2.getD "NONE"))) =
          (fun q : String × Option String × Option String =>
            some (Event.echo (Line.message "DRY-RUN" q.1
              (sanitize_for_output (pyStrOr q.2.1 "NONE")) (q.2.2.getD "NONE"))))
        from by funext q; simp [to_dry_event]]
      rw [filterMap_some_comp]
      simp [to_dry_event]
    · simp only [deleteCalls, List.filterMap_cons, List.filterMap_append,
        List.filterMap_map, List.append_nil]
      simp [List.filterMap_eq_nil_iff]

lemma dry_run_loop (script : List ScriptEntry) (q : Bool) (counter total : Nat) :
    (purge_worker_loop true script q counter total).events =
      ((purge_worker_loop false script q counter total).events).filterMap to_dry_event ∧
    deleteCalls (purge_worker_loop true script q counter total).events = [] ∧
    (purge_worker_loop true script q counter total).total
      = (purge_worker_loop false script q counter total).total ∧
    (purge_worker_loop true script q counter total).quit
      = (purge_worker_loop false script q counter total).quit ∧
    (purge_worker_loop true script q counter total).outcome
      = (purge_worker_loop false script q counter total).outcome := by
  induction script generalizing q counter total with
  | nil =>
    cases q
    · simp [purge_worker_loop, deleteCalls]
    · simp [purge_worker_loop_quit, deleteCalls]
  | cons entry rest ih =>
    cases q
    · match entry with
      | (FetchResult.raise e, ext) =>
        simp [purge_worker_loop, deleteCalls, to_dry_event, List.filterMap_cons]
      | (FetchResult.ok msgs, ext) =>
        rw [purge_worker_loop_ok_cons, purge_worker_loop_ok_cons]
        have hiw := purge_iteration_dry_wet counter total msgs
        have h21 : (purge_iteration true counter total msgs).2.1
            = (purge_iteration false counter total msgs).2.1 := by rw [hiw.2.2]
        have h22 : (purge_iteration true counter total msgs).2.2
            = (purge_iteration false counter total msgs).2.2 := by rw [hiw.2.2]
        rw [h21, h22]
        have ihx := ih ((purge_iteration false counter total msgs).2.2 || ext)
          (counter + 1) (total + (purge_iteration false counter total msgs).2.1)
        refine ⟨?_, ?_, ihx.2.2.1, ihx.2.2.2.1, ihx.2.2.2.2⟩
        · simp only [List.filterMap_append]
          rw [← hiw.1, ← ihx.1]
        · rw [deleteCalls_append, hiw.2.1, ihx.2.1]
          rfl
    · simp [purge_worker_loop_quit, deleteCalls]

/-- C5: with dry_run=true the delete operation is never invoked, and
given the same script of fetched batches the dry run emits exactly the
lines of the non-dry run with every DELETING and DELETED action token
replaced by DRY-RUN and the delete calls removed; the totals, the quit
state and the outcome agree. -/
theorem dry_run_noop (folder_id before : String) (script : List ScriptEntry) :
    (purge_worker_bg true folder_id before script).events =
      ((purge_worker_bg false folder_id before script).events).filterMap to_dry_event ∧
    deleteCalls (purge_worker_bg true folder_id before script).events = [] ∧
    (purge_worker_bg true folder_id before script).total
      = (purge_worker_bg false folder_id before script).total ∧
    (purge_worker_bg true folder_id before script).outcome
      = (purge_worker_bg false folder_id before script).outcome := by
  have h := dry_run_loop script false 1 0
  simp only [purge_worker_bg]
  rcases ho : (purge_worker_loop false script false 1 0).outcome with _ | e | _
  · rw [ho] at h
    rw [h.2.2.2.2]
    simp only
    refine ⟨?_, ?_, h.2.2.1, by trivial⟩
    · rw [List.filterMap_append, ← h.1, h.2.2.1]
      simp [to_dry_event, result_action, List.filterMap_cons]
    · rw [deleteCalls_append, h.2.1]
      simp [deleteCalls]
  · rw [ho] at h
    rw [h.2.2.2.2]
    simp only
    exact ⟨h.1, h.2.1, h.2.2.1, by rw [h.2.2.2.2, ho]⟩
  · rw [ho] at h
    rw [h.2.2.2.2]
    simp only
    exact ⟨h.1, h.2.1, h.2.2.1, by rw [h.2.2.2.2, ho]⟩

lemma cleanChar_iff (c : Char) :
    cleanChar c = true ↔ ¬(c = '|' ∨ c.toNat < 32 ∨ c.toNat = 127) := by
  simp [cleanChar, isCtrl, not_or]

lemma cleanField_sanitize (s : String) :
    cleanField (sanitize_for_output s) = true := by
  unfold cleanField sanitize_for_output
  rw [show (String.mk (s.data.map fun c =>
      if c = '|' ∨ c.toNat < 32 ∨ c.toNat = 127 then ' ' else c)).data =
    s.data.map (fun c =>
      if c = '|' ∨ c.toNat < 32 ∨ c.toNat = 127 then ' ' else c) from rfl]
  rw [List.all_eq_true]
  intro x hx
  rcases List.mem_map.mp hx with ⟨c, _, hc⟩
  by_cases h1 : c = '|' ∨ c.toNat < 32 ∨ c.toNat = 127
  · rw [if_pos h1] at hc
    rw [← hc]
    decide
  · rw [if_neg h1] at hc
    rw [← hc, cleanChar_iff]
    exact h1

lemma count_pipe_eq_zero (s : String) (h : cleanField s = true) :
    s.data.count '|' = 0 := by
  rw [List.count_eq_zero]
  intro hmem
  rw [cleanField, List.all_eq_true] at h
  have hc := h '|' hmem
  rw [cleanChar_iff] at hc
  exact hc (Or.inl rfl)

lemma all_not_ctrl (s : String) (h : cleanField s = true) :
    s.data.all (fun c => !(isCtrl c)) = true := by
  rw [List.all_eq_true]
  rw [cleanField, List.all_eq_true] at h
  intro c hc
  have hcc := h c hc
  rw [cleanChar_iff, not_or, not_or] at hcc
  simp [isCtrl]
  exact ⟨Nat.le_of_not_lt hcc.2.1, hcc.2.2⟩

lemma fieldCount_format (a i s r : String)
    (ha : cleanField a = true) (hi : cleanField i = true)
    (hs : cleanField s = true) (hr : cleanField r = true) :
    fieldCount (format_message_line a i s r) = 4 ∧
    (format_message_line a i s r).data.all (fun c => !(isCtrl c)) = true := by
  constructor
  · unfold fieldCount format_message_line
    simp only [String.data_append, List.count_append]
    rw [count_pipe_eq_zero a ha, count_pipe_eq_zero i hi, count_pipe_eq_zero s hs,
      count_pipe_eq_zero r hr]
    decide
  · unfold format_message_line
    simp only [String.data_append, List.all_append, Bool.and_eq_true]
    exact ⟨⟨⟨⟨⟨⟨all_not_ctrl a ha, by decide⟩, all_not_ctrl i hi⟩, by decide⟩,
      all_not_ctrl s hs⟩, by decide⟩, all_not_ctrl r hr⟩

lemma message_queue_mem (msgs : List Message) (i : String)
    (subj recv : Option String)
    (h : (i, subj, recv) ∈ message_queue msgs) :
    ∃ m ∈ msgs, m.id = some i ∧ m.subject = subj ∧ m.received_date_time = recv := by
  rcases List.mem_filterMap.mp h with ⟨m, hm, hf⟩
  refine ⟨m, hm, ?_⟩
  rcases hid : m.id with _ | j
  · rw [hid] at hf
    simp at hf
  · rw [hid] at hf
    dsimp only at hf
    by_cases hj : j = ""
    · rw [if_pos hj] at hf
      simp at hf
    · rw [if_neg hj] at hf
      simp only [Option.some.injEq, Prod.mk.injEq] at hf
      exact ⟨by simp [hid, hf.1], hf.2.1, hf.2.2⟩

lemma message_event_src_iteration (d : Bool) (counter total : Nat)
    (msgs : List Message) (a i s r : String)
    (h : Event.echo (Line.message a i s r) ∈ (purge_iteration d counter total msgs).1) :
    ∃ subj recv, (i, subj, recv) ∈ message_queue msgs ∧
      (a = "DRY-RUN" ∨ a = "DELETING") ∧
      s = sanitize_for_output (pyStrOr subj "NONE") ∧ r = recv.getD "NONE" := by
  rcases hm : msgs with _ | ⟨m, ms⟩
  · rw [hm] at h
    simp [purge_iteration] at h
  · have hne : msgs ≠ [] := by rw [hm]; simp
    rw [← hm]
    rw [purge_iteration_nonempty d counter total msgs hne] at h
    cases d
    · simp at h
      obtain ⟨i1, subj, recv, hq, hact, hid1, hs1, hr1⟩ := h
      refine ⟨subj, recv, ?_, Or.inr hact.symm, hs1.symm, hr1.symm⟩
      rw [← hid1]
      exact hq
    · simp at h
      obtain ⟨i1, subj, recv, hq, hact, hid1, hs1, hr1⟩ := h
      refine ⟨subj, recv, ?_, Or.inl hact.symm, hs1.symm, hr1.symm⟩
      rw [← hid1]
      exact hq

lemma message_event_src_loop (d : Bool) (script : List ScriptEntry) (q0 : Bool)
    (counter total : Nat) (a i s r : String)
    (h : Event.echo (Line.message a i s r)
        ∈ (purge_worker_loop d script q0 counter total).events) :
    ∃ msgs ext, (FetchResult.ok msgs, ext) ∈ script ∧
      ∃ subj recv, (i, subj, recv) ∈ message_queue msgs ∧
        (a = "DRY-RUN" ∨ a = "DELETING") ∧
        s = sanitize_for_output (pyStrOr subj "NONE") ∧ r = recv.getD "NONE" := by
  induction script generalizing q0 counter total with
  | nil =>
    cases q0
    · simp [purge_worker_loop] at h
    · rw [purge_worker_loop_quit] at h
      simp at h
  | cons entry rest ih =>
    cases q0
    · match entry with
      | (FetchResult.raise e, ext) =>
        simp [purge_worker_loop] at h
      | (FetchResult.ok msgs, ext) =>
        rw [purge_worker_loop_ok_cons] at h
        simp only [List.mem_append] at h
        rcases h with h | h
        · obtain ⟨subj, recv, hq, hrest⟩ :=
            message_event_src_iteration d counter total msgs a i s r h
          exact ⟨msgs, ext, List.mem_cons_self _ _, subj, recv, hq, hrest⟩
        · obtain ⟨msgs2, ext2, hmem, core⟩ := ih _ _ _ h
          exact ⟨msgs2, ext2, List.mem_cons_of_mem _ hmem, core⟩
    · rw [purge_worker_loop_quit] at h
      simp at h

lemma message_event_src_bg (d : Bool) (folder_id before : String)
    (script : List ScriptEntry) (a i s r : String)
    (h : Event.echo (Line.message a i s r)
        ∈ (purge_worker_bg d folder_id before script).events) :
    ∃ msgs ext, (FetchResult.ok msgs, ext) ∈ script ∧
      ∃ subj recv, (i, subj, recv) ∈ message_queue msgs ∧
        (a = "DRY-RUN" ∨ a = "DELETING") ∧
        s = sanitize_for_output (pyStrOr subj "NONE") ∧ r = recv.getD "NONE" := by
  simp only [purge_worker_bg] at h
  rcases ho : (purge_worker_loop d script false 1 0).outcome with _ | e | _
  · rw [ho] at h
    simp only [List.mem_append] at h
    rcases h with h | h
    · exact message_event_src_loop d script false 1 0 a i s r h
    · simp at h
  · rw [ho] at h
    exact message_event_src_loop d script false 1 0 a i s r h
  · rw [ho] at h
    exact message_event_src_loop d script false 1 0 a i s r h

/-- C3: every per-message line the purge loop reports renders, via the
pipe-delimited format string, into a line that still parses into
exactly four fields and contains no control character, for any subject
whatsoever: the subject field passes through sanitize_for_output, so a
pipe separator or control character embedded in the subject cannot
corrupt the line-oriented output format.  The message ids and the
rendered received timestamps of the fetched pages are assumed to be
separator- and control-free, as the remote API produces them. -/
theorem subject_sanitization (d : Bool) (folder_id before : String)
    (script : List ScriptEntry)
    (hscript : ∀ msgs ext, (FetchResult.ok msgs, ext) ∈ script →
      ∀ m ∈ msgs, cleanField (m.id.getD "") = true ∧
        cleanField (m.received_date_time.getD "NONE") = true)
    (a i s r : String)
    (h : Event.echo (Line.message a i s r)
        ∈ (purge_worker_bg d folder_id before script).events) :
    fieldCount (format_message_line a i s r) = 4 ∧
    (format_message_line a i s r).data.all (fun c => !(isCtrl c)) = true := by
  obtain ⟨msgs, ext, hmem, subj, recv, hq, hact, hs, hr⟩ :=
    message_event_src_bg d folder_id before script a i s r h
  obtain ⟨m, hmmem, hmid, hmsubj, hmrecv⟩ := message_queue_mem msgs i subj recv hq
  have hclean := hscript msgs ext hmem m hmmem
  have hi : cleanField i = true := by
    have := hclean.1
    rw [hmid] at this
    simpa using this
  have hr2 : cleanField r = true := by
    have := hclean.2
    rw [hmrecv] at this
    rcases recv with _ | v
    · rw [hr]
      decide
    · rw [hr]
      simpa using this
  have ha : cleanField a = true := by
    rcases hact with rfl | rfl
    · decide
    · decide
  have hs2 : cleanField s = true := by
    rw [hs]
    exact cleanField_sanitize (pyStrOr subj "NONE")
  exact fieldCount_format a i s r ha hi hs2 hr2

/-- C3 witness: a concrete run whose only message has a subject holding
both a pipe separator and a newline still renders a four-field,
control-free line. -/
theorem subject_sanitization_witness :
    fieldCount (format_message_line "DELETING" "id1"
      (sanitize_for_output (pyStrOr (some "evil|su\nbject") "NONE"))
      ((some "2023-12-01 00:00:00+00:00").getD "NONE")) = 4 ∧
    (format_message_line "DELETING" "id1"
      (sanitize_for_output (pyStrOr (some "evil|su\nbject") "NONE"))
      ((some "2023-12-01 00:00:00+00:00").getD "NONE")).data.all
        (fun c => !(isCtrl c)) = true :=
  subject_sanitization false "inbox" "2024-01-01"
    [(FetchResult.ok [Message.mk (some "id1") (some "evil|su\nbject")
        (some "2023-12-01 00:00:00+00:00")], false),
     (FetchResult.ok [], false)]
    (by
      intro msgs ext hmem m hm
      simp only [List.mem_cons, List.not_mem_nil, or_false,
        Prod.mk.injEq] at hmem
      rcases hmem with ⟨h1, h2⟩ | ⟨h1, h2⟩
      · injection h1 with hm3
        rw [hm3] at hm
        simp only [List.mem_singleton] at hm
        rw [hm]
        exact ⟨by decide, by decide⟩
      · injection h1 with hm3
        rw [hm3] at hm
        simp at hm)
    "DELETING" "id1"
    (sanitize_for_output (pyStrOr (some "evil|su\nbject") "NONE"))
    ((some "2023-12-01 00:00:00+00:00").getD "NONE")
    (by decide)
